import Mathlib

/-!
Shallow embedding of the `@iits-consulting/vuex-mutex` plugin
(`src/index.ts`) and proofs about its specification claims.

The plugin wraps a Vuex store's `dispatch` and imposes
(a) per-namespace mutual exclusion over action bodies and
(b) two-phase duplicate suppression (in-flight / quick-repeat).

Modelling conventions:
* JavaScript values that can appear in an action payload are modelled by
  the inductive `JsonVal` (with an `undef` constructor for `undefined`
  and a `date` constructor carrying the `toISOString()` rendering of a
  `Date`).  JS numbers are modelled as `Int` (the claims do not depend on
  float formatting).
* Machine time (`Date.now()`, milliseconds) is an `Int` held in the model
  state and advanced explicitly by the scheduler; in a real process
  `Date.now()` is a positive epoch value.
* The single-threaded cooperative concurrency of §5 of the spec is
  modelled as a small-step scheduler: each synchronous segment of the
  source between suspension points is one atomic step
  (`dispatchCall`, `grantStep`, `finishStep`), and steps emit events in
  the order the corresponding statements execute in the source.
* `RegExp` filters are modelled as opaque `String → Bool` predicates;
  exact-string filters are kept as strings, mirroring
  `matches` in the source.
-/

/-- JavaScript payload values, as far as the deduplication-key logic
observes them (`orderKeysDeep` in the source distinguishes exactly:
`Date`s, arrays, plain objects, and everything else). -/
inductive JsonVal where
  | null : JsonVal
  | undef : JsonVal
  | bool (b : Bool) : JsonVal
  | num (n : Int) : JsonVal
  | str (s : String) : JsonVal
  | date (iso : String) : JsonVal
  | arr (xs : List JsonVal) : JsonVal
  | obj (fields : List (String × JsonVal)) : JsonVal

/-- Key-ordering relation used for `Object.keys(value).sort()`:
fields are compared by their key string. -/
def fieldLE (a b : String × JsonVal) : Prop := a.1 ≤ b.1

instance : DecidableRel fieldLE := fun a b => inferInstanceAs (Decidable (a.1 ≤ b.1))

instance : IsTotal (String × JsonVal) fieldLE := ⟨fun a b => le_total a.1 b.1⟩

instance : IsTrans (String × JsonVal) fieldLE := ⟨fun _ _ _ h1 h2 => le_trans h1 h2⟩

/-- Sorting an object's fields by key, the model of
`Object.keys(value).sort()` followed by rebuilding the object in that
key order (source lines 313-317). -/
def sortFields (fs : List (String × JsonVal)) : List (String × JsonVal) :=
  List.insertionSort fieldLE fs

mutual

/-- Model of `orderKeysDeep` (source lines 305-320): recursively
normalizes values for stable comparison — `Date`s become their ISO
string, arrays are normalized elementwise, plain objects are rebuilt
with sorted keys, everything else is returned unchanged.  The source
sorts the keys first and then recurses into the values; the sort
compares keys only, so it commutes with valuewise normalization, and
the model recurses first to obtain structural recursion — the theorem
`orderKeysDeep_obj_sortFirst` below certifies that this equals the
source's sort-then-recurse order. -/
def orderKeysDeep : JsonVal → JsonVal
  | .date iso => .str iso
  | .arr xs => .arr (orderKeysDeepArr xs)
  | .obj fs => .obj (sortFields (orderKeysDeepFields fs))
  | .null => .null
  | .undef => .undef
  | .bool b => .bool b
  | .num n => .num n
  | .str s => .str s

/-- Elementwise normalization of an array (`value.map(orderKeysDeep)`). -/
def orderKeysDeepArr : List JsonVal → List JsonVal
  | [] => []
  | x :: xs => orderKeysDeep x :: orderKeysDeepArr xs

/-- Valuewise normalization of an object's fields
(`out[key] = orderKeysDeep(value[key])`). -/
def orderKeysDeepFields : List (String × JsonVal) → List (String × JsonVal)
  | [] => []
  | (k, v) :: fs => (k, orderKeysDeep v) :: orderKeysDeepFields fs

end

/-- JSON string escaping for the stringifier (covers the escapes that
`JSON.stringify` emits for the characters the claims exercise). -/
def escapeChar (c : Char) : List Char :=
  if c = '"' then ['\\', '"']
  else if c = '\\' then ['\\', '\\']
  else if c = '\n' then ['\\', 'n']
  else if c = '\t' then ['\\', 't']
  else if c = '\r' then ['\\', 'r']
  else [c]

def escapeString (s : String) : String :=
  String.mk (s.toList.map escapeChar).flatten

mutual

/-- Model of `JSON.stringify` on (already close to normalized) payload
values.  Returns `none` for `undefined` (JS `JSON.stringify(undefined)`
is `undefined`, not a string); inside arrays `undefined` renders as
`null` and inside objects the field is omitted, as in JS. -/
def jsonStringify : JsonVal → Option String
  | .undef => none
  | .null => some "null"
  | .bool true => some "true"
  | .bool false => some "false"
  | .num n => some (toString n)
  | .str s => some ("\"" ++ escapeString s ++ "\"")
  | .date iso => some ("\"" ++ escapeString iso ++ "\"")
  | .arr xs => some ("[" ++ String.intercalate "," (jsonStringifyArr xs) ++ "]")
  | .obj fs => some ("\x7b" ++ String.intercalate "," (jsonStringifyFields fs) ++ "\x7d")

/-- Array elements; an `undefined` element renders as `null`. -/
def jsonStringifyArr : List JsonVal → List String
  | [] => []
  | x :: xs => (jsonStringify x).getD "null" :: jsonStringifyArr xs

/-- Object fields; a field whose value stringifies to `undefined` is
omitted. -/
def jsonStringifyFields : List (String × JsonVal) → List String
  | [] => []
  | (k, v) :: fs =>
    match jsonStringify v with
    | some s => ("\"" ++ escapeString k ++ "\":" ++ s) :: jsonStringifyFields fs
    | none => jsonStringifyFields fs

end

/-- Model of `stableStringify` (source lines 300-302): deterministic
JSON stringification of the normalized value. -/
def stableStringify (v : JsonVal) : Option String :=
  jsonStringify (orderKeysDeep v)

/-- Model of `buildDeduplicationKey` (source lines 330-334):
`(namespace || '__root__/') + '|' + action + '|payload=' + stableStringify(payload)`.
When `stableStringify` yields `undefined`, the JS template literal
renders the text `undefined`. -/
def buildDeduplicationKey (nsp action : String) (payload : JsonVal) : String :=
  let base := (if nsp = "" then "__root__/" else nsp) ++ "|" ++ action
  let payloadKey := match stableStringify payload with
    | some s => s
    | none => "undefined"
  base ++ "|payload=" ++ payloadKey

/-- Result of parsing a Vuex action type (source `ParsedType`,
lines 79-83).  The source field `namespace` is called `nsp` here
(`namespace` is a Lean keyword); it includes the trailing slash. -/
structure ParsedType where
  fullType : String
  nsp : String
  action : String
deriving DecidableEq, Repr

/-- Index of the last occurrence of `c`, the model of
`String.prototype.lastIndexOf` on a single character. -/
def lastIndexOfChar (cs : List Char) (c : Char) : Option Nat :=
  match cs with
  | [] => none
  | x :: rest =>
    match lastIndexOfChar rest c with
    | some i => some (i + 1)
    | none => if x = c then some 0 else none

/-- Model of `parseType` (source lines 147-169) for string action
types: split at the last `'/'`; the namespace keeps the trailing slash.
A non-string / empty type yields an all-empty result (the defensive
fallback); the object form `{ type: s, ... }` parses like its `type`
string, so it is subsumed by the string case here. -/
def parseType (t : String) : ParsedType :=
  if t = "" then ⟨"", "", ""⟩
  else
    match lastIndexOfChar t.toList '/' with
    | none => ⟨t, "", t⟩
    | some i => ⟨t, String.mk (t.toList.take (i + 1)), String.mk (t.toList.drop (i + 1))⟩

/-- An include/exclude/noDedupe filter entry: an exact string, or a
`RegExp` modelled as an opaque predicate (its `test` method). -/
inductive ActionFilter where
  | exact (s : String) : ActionFilter
  | pattern (test : String → Bool) : ActionFilter

/-- Model of `matches` (source lines 140-145): `undefined` or an empty
filter list matches nothing; otherwise some entry must match. -/
def matchesFilters (filters : Option (List ActionFilter)) (key : String) : Bool :=
  match filters with
  | none => false
  | some fs =>
    if fs.isEmpty then false
    else fs.any fun f =>
      match f with
      | .exact s => s == key
      | .pattern test => test key

/-- Duplicate dispatch handling modes (source `DedupeMode`). -/
inductive DedupeMode where
  | share | drop | warn | block
deriving DecidableEq, Repr

/-- The `dedupe` block of `MutexPluginOptions`. -/
structure DedupeOptions where
  inFlight : Option DedupeMode
  quickRepeat : Option DedupeMode
  thresholdMillis : Option Int

/-- Model of `MutexPluginOptions` (source lines 33-67).  Optional
fields are `Option`s; `isProduction`/`debug` are coerced with `!!` in
the source, so `none` stands for `undefined`/absent. -/
structure MutexPluginOptions where
  includeF : Option (List ActionFilter)
  excludeF : Option (List ActionFilter)
  dedupe : Option DedupeOptions
  noDedupe : Option (List ActionFilter)
  isProduction : Option Bool
  debug : Option Bool

/-- Empty options object (`{}` default argument). -/
def emptyOptions : MutexPluginOptions :=
  ⟨none, none, none, none, none, none⟩

/-- The configuration after defaulting (source lines 456-466). -/
structure ResolvedConfig where
  includeF : Option (List ActionFilter)
  excludeF : Option (List ActionFilter)
  noDedupe : Option (List ActionFilter)
  inFlightMode : DedupeMode
  quickRepeatMode : DedupeMode
  thresholdMillis : Int

/-- Defaulting of the options (source lines 456-461):
`inFlight ?? 'warn'`, `quickRepeat ?? 'warn'`, `thresholdMillis ?? 500`. -/
def resolveConfig (o : MutexPluginOptions) : ResolvedConfig :=
  { includeF := o.includeF
    excludeF := o.excludeF
    noDedupe := o.noDedupe
    inFlightMode := ((o.dedupe.bind fun d => d.inFlight).getD .warn)
    quickRepeatMode := ((o.dedupe.bind fun d => d.quickRepeat).getD .warn)
    thresholdMillis := ((o.dedupe.bind fun d => d.thresholdMillis).getD 500) }

/-- Association-list lookup (model of `Map.prototype.get`). -/
def alGet {κ α : Type} [DecidableEq κ] : List (κ × α) → κ → Option α
  | [], _ => none
  | (k, v) :: rest, key => if k = key then some v else alGet rest key

/-- Lookup with a default (model of `map.get(k) ?? d`). -/
def alGetD {κ α : Type} [DecidableEq κ] (m : List (κ × α)) (key : κ) (d : α) : α :=
  (alGet m key).getD d

/-- Association-list update (model of `Map.prototype.set`). -/
def alSet {κ α : Type} [DecidableEq κ] : List (κ × α) → κ → α → List (κ × α)
  | [], key, v => [(key, v)]
  | (k, w) :: rest, key, v =>
    if k = key then (k, v) :: rest else (k, w) :: alSet rest key v

/-- Association-list removal (model of `Map.prototype.delete`). -/
def alDel {κ α : Type} [DecidableEq κ] : List (κ × α) → κ → List (κ × α)
  | [], _ => []
  | (k, w) :: rest, key => if k = key then rest else (k, w) :: alDel rest key

/-- Model of `namespaceEnter` (source lines 119-121). -/
def namespaceEnter (m : List (String × Nat)) (nsp : String) : List (String × Nat) :=
  alSet m nsp (alGetD m nsp 0 + 1)

/-- Model of `namespaceExit` (source lines 123-130): `(get ?? 1) - 1`,
deleting the entry when the depth reaches zero.  With `Nat` subtraction
the JS value `-1` (impossible in real runs) also lands in the delete
branch, as in the source. -/
def namespaceExit (m : List (String × Nat)) (nsp : String) : List (String × Nat) :=
  let depth := alGetD m nsp 1 - 1
  if depth = 0 then alDel m nsp else alSet m nsp depth

/-- Model of `namespaceIsActive` (source lines 132-134). -/
def namespaceIsActive (m : List (String × Nat)) (nsp : String) : Bool :=
  decide (0 < alGetD m nsp 0)

/-- Model of `increaseQueued` / `increaseRunning` (source lines 179-201). -/
def increaseCount (m : List (String × Nat)) (key : String) : List (String × Nat) :=
  alSet m key (alGetD m key 0 + 1)

/-- Model of `decreaseQueued` / `decreaseRunning`: `(get ?? 0) - 1`,
deleting at `≤ 0`. -/
def decreaseCount (m : List (String × Nat)) (key : String) : List (String × Nat) :=
  let c := alGetD m key 0 - 1
  if c = 0 then alDel m key else alSet m key c

/-- The mutex registry key for a namespace: `namespace || '__root__'`
(source lines 500 and 532; the empty string is falsy in JS). -/
def mutexKeyOf (nsp : String) : String :=
  if nsp = "" then "__root__" else nsp

/-- Static data of one managed dispatch call.  `id` is the value of
`DISPATCH_SEQUENCE` at dispatch time (also identifying the promise the
call produced); `parent` is the managed call from whose action body this
dispatch was issued (`none` for a top-level dispatch — a model-level
annotation used to state stack-nesting); `reentrant` records which
execution path the gate chose (source line 534 `isReenter`). -/
structure CallInfo where
  id : Nat
  fullType : String
  mutexKey : String
  dkey : String
  parent : Option Nat
  reentrant : Bool
deriving DecidableEq, Repr

/-- Phase of a managed call: waiting in the mutex FIFO, action body
executing, or settled. -/
inductive CallPhase where
  | queued | running | done
deriving DecidableEq, Repr

structure CallRec where
  info : CallInfo
  phase : CallPhase
deriving DecidableEq, Repr

/-- Settlement of an underlying action body: the value it resolved
with, or the error object it rejected with (modelled as a string). -/
inductive ActionResult where
  | ok (v : JsonVal) : ActionResult
  | err (e : String) : ActionResult

/-- Observable events of a step, in the order the corresponding source
statements execute. -/
inductive Event where
  | enterNs (nsp : String) : Event
  | exitNs (nsp : String) : Event
  | bodyStart (c : Nat) : Event
  | bodyEnd (c : Nat) : Event
  | inFlightSet (key : String) (c : Nat) : Event
  | inFlightDel (key : String) (c : Nat) : Event
  | lastDoneSet (key : String) (t : Int) : Event
  | delivered (c : Nat) (r : ActionResult) : Event

/-- The synchronous result the wrapped `dispatch` hands back to its
caller. -/
inductive DispatchOutcome where
  | passthrough
  | sharedExisting (c : Nat)
  | resolvedUndefined
  | threwInFlight (fullType : String)
  | threwQuickRepeat (fullType : String) (deltaMillis thresholdMillis : Int)
  | started (c : Nat)
deriving DecidableEq, Repr

/-- Whole engine state: one plugin instance installed on one store.
The fields mirror the source's module/closure state:
`mutexKeys` is the key set of `mutexByNamespace` (in creation order;
the lock itself is split into `lockHolder`/`waitQueue`, the state of
each `async-mutex` `Mutex`), `activeDepth` is
`activeDepthByNamespace`, `inFlightByKey` maps a dedupe key to the id
of the call whose promise is stored, and `calls`/`settled` record each
managed call's progress (the model's rendering of the promises
themselves). -/
structure EngineState where
  nextId : Nat
  now : Int
  mutexKeys : List String
  lockHolder : List (String × Nat)
  waitQueue : List (String × List Nat)
  activeDepth : List (String × Nat)
  inFlightByKey : List (String × Nat)
  lastDoneAtByKey : List (String × Int)
  queuedCountByKey : List (String × Nat)
  runningCountByKey : List (String × Nat)
  calls : List CallRec
  settled : List (Nat × ActionResult)

/-- Initial state of a fresh plugin instance (`DISPATCH_SEQUENCE = 1`,
all maps empty).  `now` starts at 0; real time is advanced by `tick`
steps (real `Date.now()` values are positive). -/
def initState : EngineState :=
  { nextId := 1, now := 0, mutexKeys := [], lockHolder := [], waitQueue := []
    activeDepth := [], inFlightByKey := [], lastDoneAtByKey := []
    queuedCountByKey := [], runningCountByKey := [], calls := [], settled := [] }

/-- Scope check of `getMutexFor` (source lines 493-498):
`include && !matches(include, fullType)` or `exclude && matches(...)`
puts a call out of scope.  Note `matches` of an empty list is `false`,
so `include: []` excludes everything and an empty `exclude` nothing. -/
def inScope (cfg : ResolvedConfig) (fullType : String) : Bool :=
  !(cfg.includeF.isSome && !matchesFilters cfg.includeF fullType)
    && !matchesFilters cfg.excludeF fullType

/-- Model of `getMutexFor` (source lines 492-507): `none` when out of
scope; otherwise the registry key `namespace || '__root__'`, creating
the mutex (appending the key to the registry) on first use. -/
def getMutexFor (cfg : ResolvedConfig) (st : EngineState) (fullType nsp : String) :
    Option String × EngineState :=
  if !(inScope cfg fullType) then (none, st)
  else
    let key := mutexKeyOf nsp
    if st.mutexKeys.contains key then (some key, st)
    else (some key, { st with mutexKeys := st.mutexKeys ++ [key] })

/-- Decision of the two-phase dedupe check (source lines 538-582). -/
inductive Decision where
  | proceed
  | shareExisting (c : Nat)
  | dropDuplicate
  | blockInFlight
  | blockQuickRepeat (deltaMillis : Int)
deriving DecidableEq, Repr

/-- Phase 2, quick-repeat (source lines 561-581).  The JS guard is
`last && Date.now() - last <= thresholdMillis`: a `0` timestamp is
falsy and skips the phase (real `Date.now()` values are positive).
`share` acts like `drop` (no in-flight promise exists to share). -/
def quickRepeatDecision (cfg : ResolvedConfig) (now : Int) (lastDone : Option Int) : Decision :=
  match lastDone with
  | none => .proceed
  | some last =>
    if last ≠ 0 ∧ now - last ≤ cfg.thresholdMillis then
      match cfg.quickRepeatMode with
      | .share => .dropDuplicate
      | .drop => .dropDuplicate
      | .block => .blockQuickRepeat (now - last)
      | .warn => .proceed
    else .proceed

/-- Phase 1 then phase 2 (source lines 538-582): an in-flight entry is
handled by `inFlightMode`; `warn` (and no entry) falls through to the
quick-repeat check. -/
def dedupeDecision (cfg : ResolvedConfig) (now : Int) (inFlightEntry : Option Nat)
    (lastDone : Option Int) : Decision :=
  match inFlightEntry with
  | some c =>
    match cfg.inFlightMode with
    | .share => .shareExisting c
    | .drop => .dropDuplicate
    | .block => .blockInFlight
    | .warn => quickRepeatDecision cfg now lastDone
  | none => quickRepeatDecision cfg now lastDone

/-- Lookup of a managed call's record by its id. -/
def findCall (cs : List CallRec) (c : Nat) : Option CallRec :=
  cs.find? fun r => r.info.id == c

/-- Phase update of a managed call's record. -/
def setPhase (cs : List CallRec) (c : Nat) (ph : CallPhase) : List CallRec :=
  cs.map fun r => if r.info.id = c then { r with phase := ph } else r

/-- The synchronous segment of the wrapped `dispatch` for an in-scope,
parseable call (source lines 530-698), with `st1` already carrying the
mutex-registry effect of `getMutexFor`; together with the
parse/scope preamble in `dispatchCall` below this is one atomic step of
the model:

3. `DISPATCH_SEQUENCE++` (line 531), skip-dedupe filter, reentrancy
   test `namespaceIsActive(mutexKey)` (lines 532-534);
4. the two-phase dedupe check unless skip-dedupe (lines 538-582) —
   `share`/`drop`/`block` return or throw here, the state already
   carrying the registry/sequence effects of steps 2-3;
5. reentrant path (lines 586-636): run-count and depth bookkeeping,
   then the async IIFE starts — which invokes the underlying action
   body synchronously up to its first await — and only after that is
   the promise stored in `inFlightByKey` (line 628): hence the event
   order `bodyStart` before `inFlightSet`;
6. mutex path (lines 640-697): the call is queued on the namespace
   mutex (`runExclusive` starts the task only once the lock is
   granted, a later `grantStep`), and the promise is stored in
   `inFlightByKey` (line 690) before any body execution.

The effective payload is passed in directly (`extractPayload` of the
source only unwraps object-style dispatch arguments). -/
def dispatchAdmit (cfg : ResolvedConfig) (st1 : EngineState) (pt : ParsedType)
    (payload : JsonVal) (parent : Option Nat) :
    DispatchOutcome × EngineState × List Event :=
  let deduplicationKey := buildDeduplicationKey pt.nsp pt.action payload
  let dispatchId := st1.nextId
  let st2 := { st1 with nextId := st1.nextId + 1 }
  let mutexKey := mutexKeyOf pt.nsp
  let skipDedupe := matchesFilters cfg.noDedupe pt.fullType
  let isReenter := namespaceIsActive st2.activeDepth mutexKey
  let decision := if skipDedupe then Decision.proceed
                  else dedupeDecision cfg st2.now (alGet st2.inFlightByKey deduplicationKey)
                    (alGet st2.lastDoneAtByKey deduplicationKey)
  match decision with
  | .shareExisting c => (.sharedExisting c, st2, [])
  | .dropDuplicate => (.resolvedUndefined, st2, [])
  | .blockInFlight => (.threwInFlight pt.fullType, st2, [])
  | .blockQuickRepeat delta =>
      (.threwQuickRepeat pt.fullType delta cfg.thresholdMillis, st2, [])
  | .proceed =>
    let info : CallInfo :=
      ⟨dispatchId, pt.fullType, mutexKey, deduplicationKey, parent, isReenter⟩
    if isReenter then
      let st3 := { st2 with
        runningCountByKey := increaseCount st2.runningCountByKey deduplicationKey
        activeDepth := namespaceEnter st2.activeDepth mutexKey
        calls := st2.calls ++ [(⟨info, .running⟩ : CallRec)] }
      let st4 := { st3 with
        inFlightByKey := alSet st3.inFlightByKey deduplicationKey dispatchId }
      (.started dispatchId, st4,
        [.enterNs mutexKey, .bodyStart dispatchId, .inFlightSet deduplicationKey dispatchId])
    else
      let st3 := { st2 with
        queuedCountByKey := increaseCount st2.queuedCountByKey deduplicationKey
        waitQueue := alSet st2.waitQueue mutexKey
          (alGetD st2.waitQueue mutexKey [] ++ [dispatchId])
        calls := st2.calls ++ [(⟨info, .queued⟩ : CallRec)] }
      let st4 := { st3 with
        inFlightByKey := alSet st3.inFlightByKey deduplicationKey dispatchId }
      (.started dispatchId, st4, [.inFlightSet deduplicationKey dispatchId])

/-- The wrapped `dispatch` itself: parse (unparseable types pass
through unmanaged, line 515-518), resolve the mutex (out-of-scope
calls pass through with only the registry effect, lines 520-528), then
hand the in-scope call to `dispatchAdmit`. -/
def dispatchCall (cfg : ResolvedConfig) (st : EngineState) (typeStr : String)
    (payload : JsonVal) (parent : Option Nat) :
    DispatchOutcome × EngineState × List Event :=
  let pt := parseType typeStr
  if pt.fullType = "" then (.passthrough, st, [])
  else
    let gm := getMutexFor cfg st pt.fullType pt.nsp
    match gm.1 with
    | none => (.passthrough, gm.2, [])
    | some _ => dispatchAdmit cfg gm.2 pt payload parent

/-- The namespace mutex grants its lock to the first queued task
(`async-mutex` is a FIFO lock; `runExclusive` then runs the task
prologue of source lines 647-662: `decreaseQueued`, `increaseRunning`,
`namespaceEnter`, then `run()` — the action body starts).  Fires only
when the lock is free; the guards (call record present with matching
mutex key) totalize the model — `runExclusive` can only grant tasks
that were submitted to that very mutex. -/
def grantStep (st : EngineState) (mutexKey : String) : EngineState × List Event :=
  match alGet st.lockHolder mutexKey with
  | some _ => (st, [])
  | none =>
    match alGetD st.waitQueue mutexKey [] with
    | [] => (st, [])
    | c :: rest =>
      match findCall st.calls c with
      | none => (st, [])
      | some cr =>
        if cr.info.mutexKey = mutexKey then
          ({ st with
              lockHolder := alSet st.lockHolder mutexKey c
              waitQueue := alSet st.waitQueue mutexKey rest
              queuedCountByKey := decreaseCount st.queuedCountByKey cr.info.dkey
              runningCountByKey := increaseCount st.runningCountByKey cr.info.dkey
              activeDepth := namespaceEnter st.activeDepth mutexKey
              calls := setPhase st.calls c .running },
            [.enterNs mutexKey, .bodyStart c])
        else (st, [])

/-- Settlement of a running call's action body with result `res`, one
atomic step covering, in source order: the `finally` bookkeeping
(`decreaseRunning`, `namespaceExit`, `lastDoneAtByKey.set` —
lines 610-625 reentrant, 670-686 mutex path), the mutex release (end of
`runExclusive`, mutex path only), the guarded `inFlightByKey` removal
(`delete` only if this call's promise is still the one stored,
lines 629-633 / 691-695), and the delivery of the unchanged result to
the caller (the `catch` rethrows the same error object, line 609/669).
The emitted events record that the bookkeeping precedes delivery. -/
def finishStep (st : EngineState) (c : Nat) (res : ActionResult) :
    EngineState × List Event :=
  match findCall st.calls c with
  | none => (st, [])
  | some cr =>
    if cr.phase = CallPhase.running then
      let key := cr.info.dkey
      let mk := cr.info.mutexKey
      let ownsEntry : Bool := alGet st.inFlightByKey key == some c
      let st' := { st with
        runningCountByKey := decreaseCount st.runningCountByKey key
        activeDepth := namespaceExit st.activeDepth mk
        lastDoneAtByKey := alSet st.lastDoneAtByKey key st.now
        lockHolder := if cr.info.reentrant then st.lockHolder else alDel st.lockHolder mk
        inFlightByKey := if ownsEntry then alDel st.inFlightByKey key else st.inFlightByKey
        calls := setPhase st.calls c .done
        settled := alSet st.settled c res }
      (st', [.bodyEnd c, .exitNs mk, .lastDoneSet key st.now]
        ++ (if ownsEntry then [.inFlightDel key c] else [])
        ++ [.delivered c res])
    else (st, [])

/-- Scheduler actions: a dispatch entering the gate (with its
model-level parent annotation), a mutex granting its lock, an action
body settling, and the clock advancing (all `Date.now()` readings
within one synchronous segment are modelled as equal). -/
inductive Act where
  | dispatch (typeStr : String) (payload : JsonVal) (parent : Option Nat) : Act
  | grant (mutexKey : String) : Act
  | finish (c : Nat) (res : ActionResult) : Act
  | tick (dt : Nat) : Act

def stepAct (cfg : ResolvedConfig) (st : EngineState) : Act → EngineState
  | .dispatch t p par => (dispatchCall cfg st t p par).2.1
  | .grant mk => (grantStep st mk).1
  | .finish c res => (finishStep st c res).1
  | .tick dt => { st with now := st.now + dt }

/-- Execution of a schedule from a state. -/
def exec (cfg : ResolvedConfig) (st : EngineState) : List Act → EngineState
  | [] => st
  | a :: rest => exec cfg (stepAct cfg st a) rest

/-- What `createVuexMutexPlugin` returns: under a truthy
`process.env.VITEST` a no-op plugin (`() => {}`, source lines 451-453),
otherwise the active plugin closed over the resolved configuration. -/
inductive PluginModel where
  | noop
  | active (cfg : ResolvedConfig)

/-- Model of `createVuexMutexPlugin` (source lines 450-466);
`vitestTruthy` models the truthiness of `process?.env?.VITEST`. -/
def createVuexMutexPlugin (vitestTruthy : Bool) (opts : MutexPluginOptions) : PluginModel :=
  if vitestTruthy then .noop else .active (resolveConfig opts)

/-- Dispatch through an installed plugin: the no-op plugin never wraps
`store.dispatch`, so every call passes through to the original dispatch
with no state touched, no mutual exclusion and no deduplication. -/
def pluginDispatch (p : PluginModel) (st : EngineState) (typeStr : String)
    (payload : JsonVal) (parent : Option Nat) :
    DispatchOutcome × EngineState × List Event :=
  match p with
  | .noop => (.passthrough, st, [])
  | .active cfg => dispatchCall cfg st typeStr payload parent

/-- Structural equality of payloads up to object key order: atoms
(including `Date`s, compared by their ISO rendering) must be equal,
arrays must be elementwise equivalent, and an object must list, in some
order, exactly the fields of the other with equivalent values
(`gmid` is the pointwise-equivalent copy in the left operand's field
order, and the right operand is a permutation of it). -/
inductive KeyOrderEquiv : JsonVal → JsonVal → Prop where
  | null : KeyOrderEquiv .null .null
  | undef : KeyOrderEquiv .undef .undef
  | bool (b : Bool) : KeyOrderEquiv (.bool b) (.bool b)
  | num (n : Int) : KeyOrderEquiv (.num n) (.num n)
  | str (s : String) : KeyOrderEquiv (.str s) (.str s)
  | date (iso : String) : KeyOrderEquiv (.date iso) (.date iso)
  | arr (xs ys : List JsonVal) (hlen : xs.length = ys.length)
      (hval : ∀ (i : Nat) (h1 : i < xs.length) (h2 : i < ys.length),
        KeyOrderEquiv (xs.get ⟨i, h1⟩) (ys.get ⟨i, h2⟩)) :
      KeyOrderEquiv (.arr xs) (.arr ys)
  | obj (fs gs gmid : List (String × JsonVal)) (hlen : fs.length = gmid.length)
      (hkey : ∀ (i : Nat) (h1 : i < fs.length) (h2 : i < gmid.length),
        (fs.get ⟨i, h1⟩).1 = (gmid.get ⟨i, h2⟩).1)
      (hval : ∀ (i : Nat) (h1 : i < fs.length) (h2 : i < gmid.length),
        KeyOrderEquiv (fs.get ⟨i, h1⟩).2 (gmid.get ⟨i, h2⟩).2)
      (hperm : List.Perm gmid gs) :
      KeyOrderEquiv (.obj fs) (.obj gs)

mutual

/-- Well-formedness of a payload as a JavaScript value: every object
level has pairwise-distinct keys (an ECMAScript object cannot hold two
fields of the same name). -/
def wfKeys : JsonVal → Bool
  | .arr xs => wfKeysArr xs
  | .obj fs => decide ((fs.map Prod.fst).Nodup) && wfKeysFields fs
  | .null => true
  | .undef => true
  | .bool _ => true
  | .num _ => true
  | .str _ => true
  | .date _ => true

def wfKeysArr : List JsonVal → Bool
  | [] => true
  | x :: xs => wfKeys x && wfKeysArr xs

def wfKeysFields : List (String × JsonVal) → Bool
  | [] => true
  | (_, v) :: fs => wfKeys v && wfKeysFields fs

end

/-- Strict key ordering on fields (used to identify sorted field lists
of a distinct-key object uniquely). -/
def fieldLT (a b : String × JsonVal) : Prop := a.1 < b.1

instance : IsAntisymm (String × JsonVal) fieldLT :=
  ⟨fun _ _ h1 h2 => absurd (lt_trans h1 h2) (lt_irrefl _)⟩

/-- Inductive invariant of the engine: call ids are below the sequence
counter and pairwise distinct, and every running mutex-path
(non-reentrant) call holds its namespace's lock. -/
structure EngineInv (st : EngineState) : Prop where
  ids_lt : ∀ r ∈ st.calls, r.info.id < st.nextId
  ids_nodup : (st.calls.map fun r => r.info.id).Nodup
  holder_of_running : ∀ r ∈ st.calls, r.info.reentrant = false → r.phase = .running →
    alGet st.lockHolder r.info.mutexKey = some r.info.id

/-- Detector for the situation claim C1 rules out: two distinct
top-level calls (`parent = none`, so neither is a nested dispatch from
the other's stack) of the same namespace whose action bodies are
executing at the same moment. -/
def nonNestedOverlap (st : EngineState) : Bool :=
  st.calls.any fun r1 => st.calls.any fun r2 =>
    (r1.info.id != r2.info.id) && (r1.info.mutexKey == r2.info.mutexKey)
      && (r1.info.parent == none) && (r2.info.parent == none)
      && (r1.phase == CallPhase.running) && (r2.phase == CallPhase.running)

/-- Whether, in an event list, call `c`'s pending handle is stored
under `key` strictly before `c`'s action body starts executing
(both events must occur). -/
def storedBeforeBodyStart (evs : List Event) (key : String) (c : Nat) : Bool :=
  match evs.findIdx? fun e =>
          match e with
          | .inFlightSet k c2 => k == key && c2 == c
          | _ => false,
        evs.findIdx? fun e =>
          match e with
          | .bodyStart c2 => c2 == c
          | _ => false with
  | some i, some j => decide (i < j)
  | _, _ => false

/-- The plugin's default configuration: no filters, both dedupe modes
`warn`, threshold 500 ms. -/
def cfgWarn : ResolvedConfig := ⟨none, none, none, .warn, .warn, 500⟩

/-- A configuration with `inFlight: 'warn'` and `quickRepeat: 'drop'`. -/
def cfgWarnDrop : ResolvedConfig := ⟨none, none, none, .warn, .drop, 500⟩

/-- Schedule exhibiting the C1 counterexample: `n/a` is dispatched and
its body starts (mutex granted); while it runs — e.g. during an await —
an unrelated top-level dispatch of `n/b` arrives.  The depth counter of
`n/` is positive, so the gate treats `n/b` as reentrant and starts its
body immediately: two non-nested same-namespace bodies run at once. -/
def actsOverlap : List Act :=
  [.dispatch "n/a" .null none, .grant "n/", .dispatch "n/b" .null none]

/-- State in which namespace `n/` is active (call 1 running): the
setting for the C7 counterexample about the reentrant path. -/
def stActiveNs : EngineState :=
  exec cfgWarn initState [.dispatch "n/x" .null none, .grant "n/"]

/-- Schedule for the C2 counterexample: at t=1000 call 1 (`n/a`) is
dispatched and runs; an identical call 2 is dispatched (in-flight mode
`warn` lets it through, reentrantly) and overwrites the in-flight
entry; call 1 finishes at t=1000 recording a last-completion stamp;
100 ms pass.  A third identical dispatch now finds an in-flight entry
(call 2 still runs) with mode `warn` — yet is dropped by the
quick-repeat phase. -/
def stWarnDrop : EngineState :=
  exec cfgWarnDrop initState
    [.tick 1000, .dispatch "n/a" .null none, .grant "n/",
     .dispatch "n/a" .null (some 1), .finish 1 (.ok .null), .tick 100]

/-- A configuration with `inFlight: 'share'`. -/
def cfgShare : ResolvedConfig := ⟨none, none, none, .share, .warn, 500⟩

/-- A configuration whose `noDedupe` list exactly matches `n/a`. -/
def cfgNoDedupe : ResolvedConfig :=
  ⟨none, none, some [.exact "n/a"], .warn, .warn, 500⟩

theorem alGet_alSet {κ α : Type} [DecidableEq κ] (m : List (κ × α)) (k k2 : κ) (v : α) :
    alGet (alSet m k v) k2 = if k = k2 then some v else alGet m k2 := by
  induction m with
  | nil => simp [alGet, alSet]
  | cons hd tl ih =>
    obtain ⟨a, w⟩ := hd
    by_cases hak : a = k
    · subst hak
      simp only [alSet, if_pos rfl, alGet]
      by_cases hak2 : a = k2
      · simp [if_pos hak2]
      · simp [if_neg hak2, ih]
    · simp only [alSet, if_neg hak, alGet, ih]
      by_cases hak2 : a = k2
      · subst hak2
        rw [if_pos rfl, if_neg fun hh => hak hh.symm, if_pos rfl]
      · simp [alGet, if_neg hak2]

theorem alGet_alDel_ne {κ α : Type} [DecidableEq κ] (m : List (κ × α)) (k k2 : κ)
    (h : k ≠ k2) : alGet (alDel m k) k2 = alGet m k2 := by
  induction m with
  | nil => rfl
  | cons hd tl ih =>
    obtain ⟨a, w⟩ := hd
    by_cases hak : a = k
    · subst hak
      simp [alDel, alGet, if_neg h]
    · simp [alDel, alGet, if_neg hak]
      by_cases hak2 : a = k2
      · simp [if_pos hak2]
      · simp [if_neg hak2, ih]

theorem getMutexFor_snd (cfg : ResolvedConfig) (st : EngineState) (ft nsp : String) :
    ∃ mks, (getMutexFor cfg st ft nsp).2 = { st with mutexKeys := mks } := by
  unfold getMutexFor
  split
  · exact ⟨st.mutexKeys, rfl⟩
  · dsimp only
    split
    · exact ⟨st.mutexKeys, rfl⟩
    · exact ⟨st.mutexKeys ++ [mutexKeyOf nsp], rfl⟩

theorem getMutexFor_fst (cfg : ResolvedConfig) (st : EngineState) (ft nsp : String) :
    (getMutexFor cfg st ft nsp).1 =
      if inScope cfg ft then some (mutexKeyOf nsp) else none := by
  unfold getMutexFor
  cases h : inScope cfg ft
  · simp [h]
  · simp only [h, Bool.not_true, Bool.false_eq_true, if_false, if_pos]
    split <;> simp [h]

theorem getMutexFor_snd_eq (cfg : ResolvedConfig) (st : EngineState) (ft nsp : String)
    (hscope : inScope cfg ft = true) :
    (getMutexFor cfg st ft nsp).2 =
      if st.mutexKeys.contains (mutexKeyOf nsp) then st
      else { st with mutexKeys := st.mutexKeys ++ [mutexKeyOf nsp] } := by
  unfold getMutexFor
  simp only [hscope, Bool.not_true, Bool.false_eq_true, if_false]
  split <;> simp_all

theorem dispatchCall_managed (cfg : ResolvedConfig) (st : EngineState) (t : String)
    (payload : JsonVal) (parent : Option Nat)
    (hft : ¬ (parseType t).fullType = "")
    (hscope : inScope cfg (parseType t).fullType = true) :
    dispatchCall cfg st t payload parent =
      dispatchAdmit cfg (getMutexFor cfg st (parseType t).fullType (parseType t).nsp).2
        (parseType t) payload parent := by
  unfold dispatchCall
  rw [if_neg hft]
  have hgm1 : (getMutexFor cfg st (parseType t).fullType (parseType t).nsp).1 =
      some (mutexKeyOf (parseType t).nsp) := by
    rw [getMutexFor_fst, if_pos hscope]
  simp only [hgm1]

/-- C5: a call whose full action type matches the `noDedupe`
(skip-dedupe) filter bypasses both dedupe phases — it is never shared,
dropped, or blocked, no matter what the in-flight or last-completion
ledgers contain — yet it is still executed under the per-namespace
mutual-exclusion regime: it is accepted (`started`), a call record is
appended, and it either runs on the reentrant path (namespace depth
entered) or is appended to the namespace mutex's FIFO queue. -/
theorem c5_skip_dedupe (cfg : ResolvedConfig) (st : EngineState) (t : String)
    (payload : JsonVal) (parent : Option Nat)
    (hft : ¬ (parseType t).fullType = "")
    (hscope : inScope cfg (parseType t).fullType = true)
    (hskip : matchesFilters cfg.noDedupe (parseType t).fullType = true) :
    (dispatchCall cfg st t payload parent).1 = .started st.nextId ∧
    (dispatchCall cfg st t payload parent).2.1.calls = st.calls ++
      [(⟨⟨st.nextId, (parseType t).fullType, mutexKeyOf (parseType t).nsp,
          buildDeduplicationKey (parseType t).nsp (parseType t).action payload, parent,
          namespaceIsActive st.activeDepth (mutexKeyOf (parseType t).nsp)⟩,
        if namespaceIsActive st.activeDepth (mutexKeyOf (parseType t).nsp) then .running
        else .queued⟩ : CallRec)] ∧
    (namespaceIsActive st.activeDepth (mutexKeyOf (parseType t).nsp) = true →
      (dispatchCall cfg st t payload parent).2.1.activeDepth =
        namespaceEnter st.activeDepth (mutexKeyOf (parseType t).nsp)) ∧
    (namespaceIsActive st.activeDepth (mutexKeyOf (parseType t).nsp) = false →
      (dispatchCall cfg st t payload parent).2.1.waitQueue =
        alSet st.waitQueue (mutexKeyOf (parseType t).nsp)
          (alGetD st.waitQueue (mutexKeyOf (parseType t).nsp) [] ++ [st.nextId])) := by
  rw [dispatchCall_managed cfg st t payload parent hft hscope]
  obtain ⟨mks, hgm⟩ := getMutexFor_snd cfg st (parseType t).fullType (parseType t).nsp
  rw [hgm]
  unfold dispatchAdmit
  simp only [hskip, ite_true]
  cases hre : namespaceIsActive st.activeDepth (mutexKeyOf (parseType t).nsp) <;>
    simp [hre]

/-- C9: when `process.env.VITEST` is truthy, `createVuexMutexPlugin`
returns the no-op plugin for every configuration: the store's dispatch
is never wrapped, so a dispatch through the installed plugin passes
straight through — no state is touched, no events occur, no mutual
exclusion and no deduplication apply. -/
theorem c9_vitest_noop (opts : MutexPluginOptions) (st : EngineState) (t : String)
    (payload : JsonVal) (parent : Option Nat) :
    createVuexMutexPlugin true opts = .noop ∧
    pluginDispatch (createVuexMutexPlugin true opts) st t payload parent =
      (.passthrough, st, []) :=
  ⟨rfl, rfl⟩

/-- C10 (amended): a root-level dispatch of `a` (empty namespace) and a
dispatch of `__root__/a` (namespace string `__root__/`) produce the
identical dedupe key — `buildDeduplicationKey` maps the empty namespace
to the literal prefix `__root__/` — so the two forms deduplicate
against each other; but their mutex registry keys
(`namespace || '__root__'`) are the distinct strings `__root__` and
`__root__/`, so they do NOT serialize on the same lock. -/
theorem c10_root_keys (a : String) (p : JsonVal) :
    buildDeduplicationKey "" a p = buildDeduplicationKey "__root__/" a p ∧
    mutexKeyOf "" = "__root__" ∧ mutexKeyOf "__root__/" = "__root__/" ∧
    mutexKeyOf "" ≠ mutexKeyOf "__root__/" :=
  ⟨rfl, rfl, rfl, by decide⟩

/-- C10 counterexample: with `inFlight: 'share'`, dispatch `a`, then
dispatch `__root__/a`: the second call hits the first's in-flight entry
(identical dedupe keys — they do deduplicate against each other), but
the mutex registry now holds the two distinct keys `__root__` and
`__root__/`: the claim that both use the registry key `__root__` and
serialize on the same lock is false. -/
theorem c10_counterexample :
    (dispatchCall cfgShare (exec cfgShare initState [.dispatch "a" .null none])
        "__root__/a" .null none).1 = .sharedExisting 1 ∧
    (dispatchCall cfgShare (exec cfgShare initState [.dispatch "a" .null none])
        "__root__/a" .null none).2.1.mutexKeys = ["__root__", "__root__/"] := by
  constructor
  · rfl
  · rfl

/-- C2 (amended): for a call dispatched while an in-flight entry for
its dedupe key exists (call `c`'s pending promise), not skip-dedupe
filtered and in scope: under `share` the call returns that existing
pending promise (so both calls resolve to the same value) and no new
execution starts; under `drop` it resolves to `undefined` with no new
execution (the body runs only the once already in flight); under
`block` it throws the gate-synthesized in-flight error synchronously,
again with no new execution; under `warn` the call proceeds past the
in-flight phase and — provided the quick-repeat phase does not
independently short-circuit it — starts a second execution, so the
action body runs twice. -/
theorem c2_in_flight_modes (cfg : ResolvedConfig) (st : EngineState) (t : String)
    (payload : JsonVal) (parent : Option Nat) (c : Nat)
    (hft : ¬ (parseType t).fullType = "")
    (hscope : inScope cfg (parseType t).fullType = true)
    (hnoskip : matchesFilters cfg.noDedupe (parseType t).fullType = false)
    (hinf : alGet st.inFlightByKey
      (buildDeduplicationKey (parseType t).nsp (parseType t).action payload) = some c) :
    (cfg.inFlightMode = .share →
      (dispatchCall cfg st t payload parent).1 = .sharedExisting c ∧
      (dispatchCall cfg st t payload parent).2.1.calls = st.calls ∧
      (dispatchCall cfg st t payload parent).2.2 = []) ∧
    (cfg.inFlightMode = .drop →
      (dispatchCall cfg st t payload parent).1 = .resolvedUndefined ∧
      (dispatchCall cfg st t payload parent).2.1.calls = st.calls ∧
      (dispatchCall cfg st t payload parent).2.2 = []) ∧
    (cfg.inFlightMode = .block →
      (dispatchCall cfg st t payload parent).1 = .threwInFlight (parseType t).fullType ∧
      (dispatchCall cfg st t payload parent).2.1.calls = st.calls ∧
      (dispatchCall cfg st t payload parent).2.2 = []) ∧
    (cfg.inFlightMode = .warn →
      quickRepeatDecision cfg st.now (alGet st.lastDoneAtByKey
        (buildDeduplicationKey (parseType t).nsp (parseType t).action payload)) = .proceed →
      (dispatchCall cfg st t payload parent).1 = .started st.nextId ∧
      (dispatchCall cfg st t payload parent).2.1.calls.length = st.calls.length + 1) := by
  rw [dispatchCall_managed cfg st t payload parent hft hscope]
  obtain ⟨mks, hgm⟩ := getMutexFor_snd cfg st (parseType t).fullType (parseType t).nsp
  rw [hgm]
  unfold dispatchAdmit
  simp only [hnoskip, Bool.false_eq_true, if_false]
  unfold dedupeDecision
  simp only [hinf]
  refine ⟨?_, ?_, ?_, ?_⟩
  · intro hmode
    simp [hmode]
  · intro hmode
    simp [hmode]
  · intro hmode
    simp [hmode]
  · intro hmode hqr
    simp only [hmode, hqr]
    split <;> simp

/-- C2 counterexample: reachable state `stWarnDrop` (in-flight mode
`warn`, quick-repeat mode `drop`): call 2's promise for `n/a` is in
flight, and an identical call 1 completed 100 ms ago.  A third
identical dispatch finds the in-flight entry, `warn` lets it continue —
but the quick-repeat phase then drops it: it resolves to `undefined`
and no new execution starts.  This falsifies the claim that with
in-flight mode `warn` "both calls execute, so the action body runs
twice". -/
theorem c2_counterexample :
    cfgWarnDrop.inFlightMode = DedupeMode.warn ∧
    alGet stWarnDrop.inFlightByKey (buildDeduplicationKey "n/" "a" .null) = some 2 ∧
    (dispatchCall cfgWarnDrop stWarnDrop "n/a" .null none).1 = .resolvedUndefined ∧
    (dispatchCall cfgWarnDrop stWarnDrop "n/a" .null none).2.1.calls = stWarnDrop.calls :=
  ⟨rfl, rfl, rfl, rfl⟩

/-- C2 witness: concrete instantiation of `c2_in_flight_modes` —
with `inFlight: 'share'` and a dispatch of `a` in flight, an identical
dispatch returns the stored pending promise (call 1's). -/
theorem c2_witness :
    (dispatchCall cfgShare (exec cfgShare initState [.dispatch "a" .null none])
      "a" .null none).1 = .sharedExisting 1 :=
  ((c2_in_flight_modes cfgShare (exec cfgShare initState [.dispatch "a" .null none])
      "a" .null none 1 (by decide) rfl rfl rfl).1 rfl).1


theorem quickRepeatDecision_hit (cfg : ResolvedConfig) (now : Int) (last : Int)
    (hne : last ≠ 0) (hwin : now - last ≤ cfg.thresholdMillis) :
    quickRepeatDecision cfg now (some last) =
      match cfg.quickRepeatMode with
      | .share => .dropDuplicate
      | .drop => .dropDuplicate
      | .block => .blockQuickRepeat (now - last)
      | .warn => .proceed := by
  unfold quickRepeatDecision
  dsimp only
  rw [if_pos (⟨hne, hwin⟩ : last ≠ 0 ∧ now - last ≤ cfg.thresholdMillis)]

/-- C3: for a call dispatched with no in-flight entry for its dedupe
key but a positive last-completion timestamp `last` with
`now - last ≤ thresholdMillis` (stored timestamps are `Date.now()`
values, hence positive — a zero timestamp would be falsy in the JS
guard): under `drop` or `share` the call resolves to `undefined` and
the action body does not run (`share` degrades to `drop`); under
`block` it throws the gate error carrying the elapsed time and the
threshold; under `warn` it proceeds to a new execution.  Moreover
`thresholdMillis` defaults to 500 when not configured. -/
theorem c3_quick_repeat_modes (cfg : ResolvedConfig) (st : EngineState) (t : String)
    (payload : JsonVal) (parent : Option Nat) (last : Int)
    (hft : ¬ (parseType t).fullType = "")
    (hscope : inScope cfg (parseType t).fullType = true)
    (hnoskip : matchesFilters cfg.noDedupe (parseType t).fullType = false)
    (hnoinf : alGet st.inFlightByKey
      (buildDeduplicationKey (parseType t).nsp (parseType t).action payload) = none)
    (hlast : alGet st.lastDoneAtByKey
      (buildDeduplicationKey (parseType t).nsp (parseType t).action payload) = some last)
    (hpos : 0 < last)
    (hwin : st.now - last ≤ cfg.thresholdMillis) :
    (cfg.quickRepeatMode = .share ∨ cfg.quickRepeatMode = .drop →
      (dispatchCall cfg st t payload parent).1 = .resolvedUndefined ∧
      (dispatchCall cfg st t payload parent).2.1.calls = st.calls ∧
      (dispatchCall cfg st t payload parent).2.2 = []) ∧
    (cfg.quickRepeatMode = .block →
      (dispatchCall cfg st t payload parent).1 =
        .threwQuickRepeat (parseType t).fullType (st.now - last) cfg.thresholdMillis ∧
      (dispatchCall cfg st t payload parent).2.1.calls = st.calls) ∧
    (cfg.quickRepeatMode = .warn →
      (dispatchCall cfg st t payload parent).1 = .started st.nextId ∧
      (dispatchCall cfg st t payload parent).2.1.calls.length = st.calls.length + 1) ∧
    (∀ o : MutexPluginOptions, (o.dedupe.bind fun d => d.thresholdMillis) = none →
      (resolveConfig o).thresholdMillis = 500) := by
  rw [dispatchCall_managed cfg st t payload parent hft hscope]
  obtain ⟨mks, hgm⟩ := getMutexFor_snd cfg st (parseType t).fullType (parseType t).nsp
  rw [hgm]
  unfold dispatchAdmit
  simp only [hnoskip, Bool.false_eq_true, if_false]
  unfold dedupeDecision
  have hne : last ≠ 0 := by omega
  simp only [hnoinf, hlast, quickRepeatDecision_hit cfg st.now last hne hwin]
  refine ⟨?_, ?_, ?_, ?_⟩
  · rintro (hmode | hmode) <;> simp [hmode]
  · intro hmode
    simp [hmode]
  · intro hmode
    simp only [hmode]
    split <;> simp
  · intro o ho
    unfold resolveConfig
    rw [ho]
    rfl

/-- C3 witness: `quickRepeat: 'drop'`; call 1 for `n/a` completed at
t=1000; at t=1100 (100 ms later, within the 500 ms threshold) an
identical dispatch resolves to `undefined`. -/
theorem c3_witness :
    (dispatchCall cfgWarnDrop
      (exec cfgWarnDrop initState
        [.tick 1000, .dispatch "n/a" .null none, .grant "n/",
         .finish 1 (.ok .null), .tick 100])
      "n/a" .null none).1 = .resolvedUndefined :=
  ((c3_quick_repeat_modes cfgWarnDrop
      (exec cfgWarnDrop initState
        [.tick 1000, .dispatch "n/a" .null none, .grant "n/",
         .finish 1 (.ok .null), .tick 100])
      "n/a" .null none 1000 (by decide) rfl rfl rfl rfl (by decide) (by decide)).1
    (Or.inr rfl)).1

/-- C6 (amended): when the two-phase dedupe check short-circuits a call
(any decision other than proceed), the call returns or throws with the
mutex lock state untouched: the lock holder, wait queues, namespace
depths, both dedupe ledgers, and the call list are exactly as before.
The mutex registry, however, was already resolved before the dedupe
check (source line 522), so the registry gains the namespace's key when
— and only when — no mutex for it existed yet; it is unchanged exactly
when the key was already present. -/
theorem c6_short_circuit_frame (cfg : ResolvedConfig) (st : EngineState) (t : String)
    (payload : JsonVal) (parent : Option Nat) (d : Decision)
    (hft : ¬ (parseType t).fullType = "")
    (hscope : inScope cfg (parseType t).fullType = true)
    (hnoskip : matchesFilters cfg.noDedupe (parseType t).fullType = false)
    (hdec : dedupeDecision cfg st.now
      (alGet st.inFlightByKey
        (buildDeduplicationKey (parseType t).nsp (parseType t).action payload))
      (alGet st.lastDoneAtByKey
        (buildDeduplicationKey (parseType t).nsp (parseType t).action payload)) = d)
    (hne : d ≠ .proceed) :
    (dispatchCall cfg st t payload parent).2.1.lockHolder = st.lockHolder ∧
    (dispatchCall cfg st t payload parent).2.1.waitQueue = st.waitQueue ∧
    (dispatchCall cfg st t payload parent).2.1.activeDepth = st.activeDepth ∧
    (dispatchCall cfg st t payload parent).2.1.inFlightByKey = st.inFlightByKey ∧
    (dispatchCall cfg st t payload parent).2.1.lastDoneAtByKey = st.lastDoneAtByKey ∧
    (dispatchCall cfg st t payload parent).2.1.calls = st.calls ∧
    (dispatchCall cfg st t payload parent).2.1.mutexKeys =
      (if st.mutexKeys.contains (mutexKeyOf (parseType t).nsp) then st.mutexKeys
       else st.mutexKeys ++ [mutexKeyOf (parseType t).nsp]) := by
  rw [dispatchCall_managed cfg st t payload parent hft hscope,
    getMutexFor_snd_eq cfg st (parseType t).fullType (parseType t).nsp hscope]
  by_cases hc : st.mutexKeys.contains (mutexKeyOf (parseType t).nsp) = true
  · rw [if_pos hc]
    unfold dispatchAdmit
    simp only [hnoskip, Bool.false_eq_true, if_false, hdec, if_pos hc]
    cases d
    · exact absurd rfl hne
    all_goals exact ⟨rfl, rfl, rfl, rfl, rfl, rfl, rfl⟩
  · rw [if_neg hc]
    unfold dispatchAdmit
    simp only [hnoskip, Bool.false_eq_true, if_false, hdec, if_neg hc]
    cases d
    · exact absurd rfl hne
    all_goals exact ⟨rfl, rfl, rfl, rfl, rfl, rfl, rfl⟩

/-- C6 counterexample: a reachable violation of the claim as stated.
Dispatch of `a` leaves the registry at `["__root__"]` and an in-flight
entry under the dedupe key `__root__/|a|payload=null`.  A dispatch of
`__root__/a` — a different namespace, but the very same dedupe key —
is short-circuited by the in-flight check (mode `share`), yet its
mutex was resolved before that check: the registry has grown by the
key `__root__/`, so the mutex registry state after the short-circuited
call differs from the state before it. -/
theorem c6_counterexample :
    (exec cfgShare initState [.dispatch "a" .null none]).mutexKeys = ["__root__"] ∧
    (dispatchCall cfgShare (exec cfgShare initState [.dispatch "a" .null none])
        "__root__/a" .null none).1 = .sharedExisting 1 ∧
    (dispatchCall cfgShare (exec cfgShare initState [.dispatch "a" .null none])
        "__root__/a" .null none).2.1.mutexKeys ≠
      (exec cfgShare initState [.dispatch "a" .null none]).mutexKeys :=
  ⟨rfl, rfl, by decide⟩

/-- C6 witness: a short-circuited duplicate of `n/a` (mode `share`)
leaves the lock state untouched. -/
theorem c6_witness :
    (dispatchCall cfgShare (exec cfgShare initState [.dispatch "n/a" .null none])
      "n/a" .null none).2.1.lockHolder =
      (exec cfgShare initState [.dispatch "n/a" .null none]).lockHolder :=
  (c6_short_circuit_frame cfgShare (exec cfgShare initState [.dispatch "n/a" .null none])
    "n/a" .null none (.shareExisting 1) (by decide) rfl rfl rfl (by decide)).1

/-- C7 (amended): for an accepted call (skip-dedupe, or a proceed
decision from the two-phase check):
on the mutex path (namespace not active) the pending handle is stored
in the in-flight map during the dispatch segment — the only events are
the `inFlightSet`, the entry maps to this call, and the call is merely
queued, its body starting only at a later mutex grant — so the handle
is stored before the body begins; on the reentrant path, however, the
async IIFE starts the action body synchronously before
`inFlightByKey.set` runs (event order `bodyStart` then `inFlightSet`).
On settlement the entry is removed exactly when this call's handle is
still the one stored: a call never deletes an entry that a newer
identical call has overwritten. -/
theorem c7_registration (cfg : ResolvedConfig) (st : EngineState) (t : String)
    (payload : JsonVal) (parent : Option Nat)
    (hft : ¬ (parseType t).fullType = "")
    (hscope : inScope cfg (parseType t).fullType = true)
    (hdec : matchesFilters cfg.noDedupe (parseType t).fullType = true ∨
      dedupeDecision cfg st.now
        (alGet st.inFlightByKey
          (buildDeduplicationKey (parseType t).nsp (parseType t).action payload))
        (alGet st.lastDoneAtByKey
          (buildDeduplicationKey (parseType t).nsp (parseType t).action payload)) =
        .proceed) :
    (namespaceIsActive st.activeDepth (mutexKeyOf (parseType t).nsp) = false →
      (dispatchCall cfg st t payload parent).2.2 =
        [.inFlightSet (buildDeduplicationKey (parseType t).nsp (parseType t).action payload)
          st.nextId] ∧
      alGet (dispatchCall cfg st t payload parent).2.1.inFlightByKey
        (buildDeduplicationKey (parseType t).nsp (parseType t).action payload) =
        some st.nextId ∧
      (dispatchCall cfg st t payload parent).2.1.calls = st.calls ++
        [(⟨⟨st.nextId, (parseType t).fullType, mutexKeyOf (parseType t).nsp,
            buildDeduplicationKey (parseType t).nsp (parseType t).action payload,
            parent, false⟩, .queued⟩ : CallRec)]) ∧
    (namespaceIsActive st.activeDepth (mutexKeyOf (parseType t).nsp) = true →
      (dispatchCall cfg st t payload parent).2.2 =
        [.enterNs (mutexKeyOf (parseType t).nsp), .bodyStart st.nextId,
         .inFlightSet (buildDeduplicationKey (parseType t).nsp (parseType t).action payload)
           st.nextId]) ∧
    (∀ (st' : EngineState) (c : Nat) (res : ActionResult) (cr : CallRec),
      findCall st'.calls c = some cr → cr.phase = .running →
      ¬ alGet st'.inFlightByKey cr.info.dkey = some c →
      (finishStep st' c res).1.inFlightByKey = st'.inFlightByKey) ∧
    (∀ (st' : EngineState) (c : Nat) (res : ActionResult) (cr : CallRec),
      findCall st'.calls c = some cr → cr.phase = .running →
      alGet st'.inFlightByKey cr.info.dkey = some c →
      (finishStep st' c res).1.inFlightByKey = alDel st'.inFlightByKey cr.info.dkey) := by
  have hdecision :
      (if matchesFilters cfg.noDedupe (parseType t).fullType = true then Decision.proceed
        else dedupeDecision cfg st.now
          (alGet st.inFlightByKey
            (buildDeduplicationKey (parseType t).nsp (parseType t).action payload))
          (alGet st.lastDoneAtByKey
            (buildDeduplicationKey (parseType t).nsp (parseType t).action payload))) =
        Decision.proceed := by
    rcases hdec with h | h
    · rw [if_pos h]
    · by_cases hsk : matchesFilters cfg.noDedupe (parseType t).fullType = true
      · rw [if_pos hsk]
      · rw [if_neg hsk]
        exact h
  refine ⟨?_, ?_, ?_, ?_⟩
  · intro hns
    rw [dispatchCall_managed cfg st t payload parent hft hscope]
    obtain ⟨mks, hgm⟩ := getMutexFor_snd cfg st (parseType t).fullType (parseType t).nsp
    rw [hgm]
    unfold dispatchAdmit
    simp only [hdecision, hns, Bool.false_eq_true, if_false]
    simp [alGet_alSet]
  · intro hns
    rw [dispatchCall_managed cfg st t payload parent hft hscope]
    obtain ⟨mks, hgm⟩ := getMutexFor_snd cfg st (parseType t).fullType (parseType t).nsp
    rw [hgm]
    unfold dispatchAdmit
    simp only [hdecision, hns, if_true]
  · intro st' c res cr hfind hrun hown
    unfold finishStep
    rw [hfind]
    simp only [hrun, if_pos]
    have hb : (alGet st'.inFlightByKey cr.info.dkey == some c) = false := by
      simp only [beq_eq_false_iff_ne, ne_eq]
      exact hown
    simp [hb]
  · intro st' c res cr hfind hrun hown
    unfold finishStep
    rw [hfind]
    simp only [hrun, if_pos]
    have hb : (alGet st'.inFlightByKey cr.info.dkey == some c) = true := by
      simp only [beq_iff_eq]
      exact hown
    simp [hb]

/-- C7 counterexample: namespace `n/` is active (call 1 running), and a
dispatch of `n/y` takes the reentrant path.  `bodyStart 2` occurs and
the handle is stored (`inFlightSet`), but the store does NOT precede
the body start — the async IIFE runs the action body synchronously
before `inFlightByKey.set` executes — falsifying the claim that the
pending handle is always stored before the action body begins
executing. -/
theorem c7_counterexample :
    namespaceIsActive stActiveNs.activeDepth "n/" = true ∧
    (dispatchCall cfgWarn stActiveNs "n/y" .null (some 1)).1 = .started 2 ∧
    ((dispatchCall cfgWarn stActiveNs "n/y" .null (some 1)).2.2.any fun e =>
      match e with
      | .bodyStart c => c == 2
      | _ => false) = true ∧
    storedBeforeBodyStart (dispatchCall cfgWarn stActiveNs "n/y" .null (some 1)).2.2
      (buildDeduplicationKey "n/" "y" .null) 2 = false :=
  ⟨rfl, rfl, rfl, rfl⟩

/-- C7 witness: a fresh mutex-path dispatch of `n/a` stores its
pending handle under its dedupe key during the dispatch segment
(before any body execution). -/
theorem c7_witness :
    alGet (dispatchCall cfgWarn initState "n/a" .null none).2.1.inFlightByKey
      (buildDeduplicationKey "n/" "a" .null) = some 1 :=
  ((c7_registration cfgWarn initState "n/a" .null none (by decide) rfl (Or.inr rfl)).1
    rfl).2.1

/-- C8: when a running call's action body settles with result `res`
(in particular a thrown error), the finalization step delivers exactly
`res` to the caller — the error object is never wrapped or replaced —
and the bookkeeping runs unconditionally first: the namespace depth is
decremented (`namespaceExit`) and the last-completion timestamp for the
dedupe key is recorded, with the `exitNs` and `lastDoneSet` events
preceding the `delivered` event in the emitted order, for success and
failure alike. -/
theorem c8_error_propagation (st : EngineState) (c : Nat) (res : ActionResult)
    (cr : CallRec)
    (hfind : findCall st.calls c = some cr)
    (hrun : cr.phase = .running) :
    (finishStep st c res).1.activeDepth = namespaceExit st.activeDepth cr.info.mutexKey ∧
    alGet (finishStep st c res).1.lastDoneAtByKey cr.info.dkey = some st.now ∧
    alGet (finishStep st c res).1.settled c = some res ∧
    (finishStep st c res).2 =
      [.bodyEnd c, .exitNs cr.info.mutexKey, .lastDoneSet cr.info.dkey st.now]
        ++ (if alGet st.inFlightByKey cr.info.dkey == some c
            then [.inFlightDel cr.info.dkey c] else [])
        ++ [.delivered c res] := by
  unfold finishStep
  rw [hfind]
  dsimp only
  rw [if_pos hrun]
  refine ⟨rfl, ?_, ?_, rfl⟩
  · simp [alGet_alSet]
  · simp [alGet_alSet]

/-- C8 witness: call 1 (`n/a`, running since t=50) fails with the error
`boom`; the finalization records that same error as the delivered
result. -/
theorem c8_witness :
    alGet (finishStep
        (exec cfgWarn initState [.tick 50, .dispatch "n/a" .null none, .grant "n/"])
        1 (.err "boom")).1.settled 1 = some (.err "boom") :=
  (c8_error_propagation
    (exec cfgWarn initState [.tick 50, .dispatch "n/a" .null none, .grant "n/"])
    1 (.err "boom")
    ⟨⟨1, "n/a", "n/", buildDeduplicationKey "n/" "a" .null, none, false⟩, .running⟩
    rfl rfl).2.2.1

theorem setPhase_map_id (cs : List CallRec) (c : Nat) (ph : CallPhase) :
    ((setPhase cs c ph).map fun r => r.info.id) = cs.map fun r => r.info.id := by
  unfold setPhase
  rw [List.map_map]
  apply List.map_congr_left
  intro r _
  by_cases h : r.info.id = c <;> simp [h]

theorem mem_setPhase {cs : List CallRec} {c : Nat} {ph : CallPhase} {r' : CallRec}
    (h : r' ∈ setPhase cs c ph) :
    ∃ r, r ∈ cs ∧ r'.info = r.info ∧
      ((r.info.id = c ∧ r'.phase = ph) ∨ (¬ r.info.id = c ∧ r' = r)) := by
  unfold setPhase at h
  obtain ⟨r, hr, hEq⟩ := List.mem_map.1 h
  by_cases hid : r.info.id = c
  · rw [if_pos hid] at hEq
    exact ⟨r, hr, by rw [← hEq], Or.inl ⟨hid, by rw [← hEq]⟩⟩
  · rw [if_neg hid] at hEq
    exact ⟨r, hr, by rw [← hEq], Or.inr ⟨hid, hEq.symm⟩⟩

theorem findCall_mem {cs : List CallRec} {c : Nat} {cr : CallRec}
    (h : findCall cs c = some cr) : cr ∈ cs ∧ cr.info.id = c := by
  unfold findCall at h
  refine ⟨List.mem_of_find?_eq_some h, ?_⟩
  have hp := List.find?_some h
  simpa using hp

theorem engineInv_bump (st : EngineState) (hInv : EngineInv st) :
    EngineInv { st with nextId := st.nextId + 1 } := by
  constructor
  · intro r hr
    exact Nat.lt_succ_of_lt (hInv.ids_lt r hr)
  · exact hInv.ids_nodup
  · exact hInv.holder_of_running

theorem engineInv_dispatchAdmit (cfg : ResolvedConfig) (st1 : EngineState)
    (pt : ParsedType) (payload : JsonVal) (parent : Option Nat)
    (hInv : EngineInv st1) :
    EngineInv (dispatchAdmit cfg st1 pt payload parent).2.1 := by
  unfold dispatchAdmit
  dsimp only
  split
  · exact engineInv_bump st1 hInv
  · exact engineInv_bump st1 hInv
  · exact engineInv_bump st1 hInv
  · exact engineInv_bump st1 hInv
  · split
    case isTrue hre =>
      constructor
      · intro r hr
        rcases List.mem_append.1 hr with hr | hr
        · exact Nat.lt_succ_of_lt (hInv.ids_lt r hr)
        · rw [List.mem_singleton.1 hr]
          exact Nat.lt_succ_self _
      · rw [List.map_append, List.nodup_append]
        refine ⟨hInv.ids_nodup, List.nodup_singleton _, ?_⟩
        intro x hx hx2
        simp only [List.map_cons, List.map_nil, List.mem_singleton] at hx2
        obtain ⟨r, hr, hid⟩ := List.mem_map.1 hx
        have := hInv.ids_lt r hr
        omega
      · intro r hr hreent hrun
        rcases List.mem_append.1 hr with hr | hr
        · exact hInv.holder_of_running r hr hreent hrun
        · exfalso
          rw [List.mem_singleton.1 hr] at hreent
          rw [hre] at hreent
          exact Bool.true_eq_false.mp hreent
    case isFalse hre =>
      constructor
      · intro r hr
        rcases List.mem_append.1 hr with hr | hr
        · exact Nat.lt_succ_of_lt (hInv.ids_lt r hr)
        · rw [List.mem_singleton.1 hr]
          exact Nat.lt_succ_self _
      · rw [List.map_append, List.nodup_append]
        refine ⟨hInv.ids_nodup, List.nodup_singleton _, ?_⟩
        intro x hx hx2
        simp only [List.map_cons, List.map_nil, List.mem_singleton] at hx2
        obtain ⟨r, hr, hid⟩ := List.mem_map.1 hx
        have := hInv.ids_lt r hr
        omega
      · intro r hr hreent hrun
        rcases List.mem_append.1 hr with hr | hr
        · exact hInv.holder_of_running r hr hreent hrun
        · exfalso
          rw [List.mem_singleton.1 hr] at hrun
          exact CallPhase.noConfusion (hrun : CallPhase.queued = CallPhase.running)

theorem engineInv_dispatchCall (cfg : ResolvedConfig) (st : EngineState) (t : String)
    (payload : JsonVal) (parent : Option Nat) (hInv : EngineInv st) :
    EngineInv (dispatchCall cfg st t payload parent).2.1 := by
  unfold dispatchCall
  dsimp only
  split
  · exact hInv
  · obtain ⟨mks, hgm⟩ := getMutexFor_snd cfg st (parseType t).fullType (parseType t).nsp
    have hInv2 : EngineInv (getMutexFor cfg st (parseType t).fullType (parseType t).nsp).2 := by
      rw [hgm]
      exact ⟨hInv.ids_lt, hInv.ids_nodup, hInv.holder_of_running⟩
    split
    · exact hInv2
    · exact engineInv_dispatchAdmit cfg _ (parseType t) payload parent hInv2

theorem engineInv_grantStep (st : EngineState) (mk : String) (hInv : EngineInv st) :
    EngineInv (grantStep st mk).1 := by
  unfold grantStep
  split
  next x hlock => exact hInv
  next hlock =>
  split
  next hqueue => exact hInv
  next c2 rest hqueue =>
  split
  next hfind => exact hInv
  next cr hfind =>
  split
  case isFalse hmk => exact hInv
  case isTrue hmk =>
    dsimp only
    obtain ⟨hcrmem, hcrid⟩ := findCall_mem hfind
    constructor
    · intro r hr
      obtain ⟨r0, hr0, hinfo, _⟩ := mem_setPhase hr
      rw [hinfo]
      exact hInv.ids_lt r0 hr0
    · rw [setPhase_map_id]
      exact hInv.ids_nodup
    · intro r hr hreent hrun
      obtain ⟨r0, hr0, hinfo, hcase⟩ := mem_setPhase hr
      rcases hcase with ⟨hid, _⟩ | ⟨hid, hsame⟩
      · by_cases hrm : r.info.mutexKey = mk
        · rw [hrm, alGet_alSet, if_pos rfl, hinfo, hid]
        · exfalso
          have hr0cr : r0 = cr :=
            List.inj_on_of_nodup_map hInv.ids_nodup hr0 hcrmem (by rw [hid, hcrid])
          apply hrm
          rw [hinfo, hr0cr]
          exact hmk
      · subst hsame
        have hold := hInv.holder_of_running r hr0 hreent hrun
        by_cases hrm : r.info.mutexKey = mk
        · exfalso
          rw [hrm, hlock] at hold
          exact Option.noConfusion hold
        · rw [alGet_alSet, if_neg fun hh => hrm hh.symm]
          exact hold

theorem engineInv_finishStep (st : EngineState) (c : Nat) (res : ActionResult)
    (hInv : EngineInv st) :
    EngineInv (finishStep st c res).1 := by
  unfold finishStep
  split
  next hfind => exact hInv
  next cr hfind =>
  split
  case isFalse hphase => exact hInv
  case isTrue hphase =>
    dsimp only
    obtain ⟨hcrmem, hcrid⟩ := findCall_mem hfind
    constructor
    · intro r hr
      obtain ⟨r0, hr0, hinfo, _⟩ := mem_setPhase hr
      rw [hinfo]
      exact hInv.ids_lt r0 hr0
    · rw [setPhase_map_id]
      exact hInv.ids_nodup
    · intro r hr hreent hrun
      obtain ⟨r0, hr0, hinfo, hcase⟩ := mem_setPhase hr
      rcases hcase with ⟨hid, hph⟩ | ⟨hid, hsame⟩
      · exfalso
        rw [hph] at hrun
        exact CallPhase.noConfusion hrun
      · subst hsame
        have hold := hInv.holder_of_running r hr0 hreent hrun
        by_cases hcre : cr.info.reentrant = true
        · rw [if_pos hcre]
          exact hold
        · rw [if_neg hcre]
          have hcrfalse : cr.info.reentrant = false := by simpa using hcre
          have hcrrun := hInv.holder_of_running cr hcrmem hcrfalse hphase
          by_cases hrm : r.info.mutexKey = cr.info.mutexKey
          · exfalso
            apply hid
            rw [← hcrid]
            have hsome : some r.info.id = some cr.info.id := by
              rw [← hold, ← hcrrun, hrm]
            exact Option.some.inj hsome
          · rw [alGet_alDel_ne _ _ _ fun hh => hrm hh.symm]
            exact hold

theorem engineInv_stepAct (cfg : ResolvedConfig) (st : EngineState) (a : Act)
    (hInv : EngineInv st) : EngineInv (stepAct cfg st a) := by
  cases a with
  | dispatch t p par => exact engineInv_dispatchCall cfg st t p par hInv
  | grant mk => exact engineInv_grantStep st mk hInv
  | finish c res => exact engineInv_finishStep st c res hInv
  | tick dt => exact ⟨hInv.ids_lt, hInv.ids_nodup, hInv.holder_of_running⟩

theorem engineInv_initState : EngineInv initState := by
  constructor
  · intro r hr
    exact absurd hr (List.not_mem_nil r)
  · exact List.nodup_nil
  · intro r hr
    exact absurd hr (List.not_mem_nil r)

theorem engineInv_exec (cfg : ResolvedConfig) (st : EngineState) (acts : List Act)
    (hInv : EngineInv st) : EngineInv (exec cfg st acts) := by
  induction acts generalizing st with
  | nil => exact hInv
  | cons a rest ih =>
    exact ih (stepAct cfg st a) (engineInv_stepAct cfg st a hInv)

/-- C1 (amended): in every reachable state of the engine, two distinct
calls of the same namespace that were both admitted through the mutex
path (not routed reentrant) never have their action bodies executing
at the same time — the namespace mutex serializes them.  The exception
the code actually implements is broader than the claim's: any call
dispatched while the namespace's depth counter is positive is routed
around the mutex as "reentrant", whether or not it is a nested
dispatch of the running action's stack, and such calls can overlap
(see the counterexample). -/
theorem c1_mutex_path_exclusive (cfg : ResolvedConfig) (acts : List Act)
    (r1 r2 : CallRec)
    (h1 : r1 ∈ (exec cfg initState acts).calls)
    (h2 : r2 ∈ (exec cfg initState acts).calls)
    (hid : r1.info.id ≠ r2.info.id)
    (hre1 : r1.info.reentrant = false)
    (hre2 : r2.info.reentrant = false)
    (hmk : r1.info.mutexKey = r2.info.mutexKey) :
    ¬ (r1.phase = .running ∧ r2.phase = .running) := by
  rintro ⟨hp1, hp2⟩
  have hInv := engineInv_exec cfg initState acts engineInv_initState
  have e1 := hInv.holder_of_running r1 h1 hre1 hp1
  have e2 := hInv.holder_of_running r2 h2 hre2 hp2
  rw [hmk] at e1
  rw [e1] at e2
  exact hid (Option.some.inj e2)

/-- C1 counterexample: schedule `actsOverlap` — `n/a` is dispatched and
granted the `n/` mutex; while its body runs, a top-level dispatch of
`n/b` (parent `none`, not nested in any call's stack) arrives.  The
depth counter of `n/` is positive, so the gate routes `n/b` around the
mutex, and both bodies are running simultaneously: the claim that
same-namespace bodies never overlap except for stack-nested reentrant
calls — i.e. that the depth test routes around the mutex exactly the
nested dispatches — is false. -/
theorem c1_counterexample :
    nonNestedOverlap (exec cfgWarn initState actsOverlap) = true ∧
    (exec cfgWarn initState actsOverlap).calls =
      [⟨⟨1, "n/a", "n/", buildDeduplicationKey "n/" "a" .null, none, false⟩, .running⟩,
       ⟨⟨2, "n/b", "n/", buildDeduplicationKey "n/" "b" .null, none, true⟩, .running⟩] :=
  ⟨rfl, rfl⟩

/-- C1 witness: `m/a` running (mutex granted) and `m/b` queued behind
it on the same mutex; the theorem instantiates to: they are not both
running. -/
theorem c1_witness :
    ¬ ((⟨⟨1, "m/a", "m/", buildDeduplicationKey "m/" "a" .null, none, false⟩,
          .running⟩ : CallRec).phase = .running ∧
       (⟨⟨2, "m/b", "m/", buildDeduplicationKey "m/" "b" .null, none, false⟩,
          .queued⟩ : CallRec).phase = .running) :=
  c1_mutex_path_exclusive cfgWarn
    [.dispatch "m/a" .null none, .dispatch "m/b" .null none, .grant "m/"]
    ⟨⟨1, "m/a", "m/", buildDeduplicationKey "m/" "a" .null, none, false⟩, .running⟩
    ⟨⟨2, "m/b", "m/", buildDeduplicationKey "m/" "b" .null, none, false⟩, .queued⟩
    (by decide) (by decide) (by decide) rfl rfl rfl

/-- C5 witness: `n/a` matches the `noDedupe` filter and is accepted
(started) even though nothing is in flight. -/
theorem c5_witness :
    (dispatchCall cfgNoDedupe initState "n/a" .null none).1 = .started 1 :=
  (c5_skip_dedupe cfgNoDedupe initState "n/a" .null none (by decide) rfl rfl).1

theorem orderKeysDeepArr_eq_map (xs : List JsonVal) :
    orderKeysDeepArr xs = xs.map orderKeysDeep := by
  induction xs with
  | nil => rfl
  | cons x rest ih => simp [orderKeysDeepArr, ih]

theorem orderKeysDeepFields_eq_map (fs : List (String × JsonVal)) :
    orderKeysDeepFields fs = fs.map fun kv => (kv.1, orderKeysDeep kv.2) := by
  induction fs with
  | nil => rfl
  | cons kv rest ih =>
    obtain ⟨k, v⟩ := kv
    simp [orderKeysDeepFields, ih]

/-- Fidelity of the object case: the source sorts the keys first and
then recurses into the values (`for key of Object.keys(value).sort()`);
since the sort compares keys only, this equals the model's
recurse-then-sort order. -/
theorem orderKeysDeep_obj_sortFirst (fs : List (String × JsonVal)) :
    orderKeysDeep (.obj fs) =
      .obj ((sortFields fs).map fun kv => (kv.1, orderKeysDeep kv.2)) := by
  show JsonVal.obj (sortFields (orderKeysDeepFields fs)) = _
  rw [orderKeysDeepFields_eq_map]
  unfold sortFields
  rw [List.map_insertionSort fieldLE fieldLE (fun kv => (kv.1, orderKeysDeep kv.2)) fs
    (fun a _ b _ => Iff.rfl)]

theorem sortFields_perm (fs : List (String × JsonVal)) : List.Perm (sortFields fs) fs :=
  List.perm_insertionSort fieldLE fs

theorem sortFields_sorted (fs : List (String × JsonVal)) :
    List.Sorted fieldLE (sortFields fs) :=
  List.sorted_insertionSort fieldLE fs

instance : IsTrans (String × JsonVal) fieldLT :=
  ⟨fun _ _ _ h1 h2 => lt_trans h1 h2⟩

theorem sorted_fieldLT_of_nodup (l : List (String × JsonVal))
    (hs : List.Sorted fieldLE l) (hnd : (l.map Prod.fst).Nodup) :
    List.Sorted fieldLT l := by
  have hne : l.Pairwise fun a b => Prod.fst a ≠ Prod.fst b := (List.pairwise_map).1 hnd
  have hand := hs.and hne
  exact hand.imp fun h => lt_of_le_of_ne h.1 h.2

theorem sortFields_eq_of_perm (l1 l2 : List (String × JsonVal))
    (hp : List.Perm l1 l2) (hnd : (l2.map Prod.fst).Nodup) :
    sortFields l1 = sortFields l2 := by
  have hnd1 : (l1.map Prod.fst).Nodup := ((hp.map Prod.fst).nodup_iff).2 hnd
  have hndS1 : ((sortFields l1).map Prod.fst).Nodup :=
    (((sortFields_perm l1).map Prod.fst).nodup_iff).2 hnd1
  have hndS2 : ((sortFields l2).map Prod.fst).Nodup :=
    (((sortFields_perm l2).map Prod.fst).nodup_iff).2 hnd
  apply List.eq_of_perm_of_sorted
    (((sortFields_perm l1).trans hp).trans (sortFields_perm l2).symm)
    (sorted_fieldLT_of_nodup _ (sortFields_sorted l1) hndS1)
    (sorted_fieldLT_of_nodup _ (sortFields_sorted l2) hndS2)

theorem wfKeysArr_forall (xs : List JsonVal) (hwf : wfKeysArr xs = true) :
    ∀ x ∈ xs, wfKeys x = true := by
  induction xs with
  | nil => intro x hx; exact absurd hx (List.not_mem_nil x)
  | cons y rest ih =>
    simp only [wfKeysArr, Bool.and_eq_true] at hwf
    intro x hx
    rcases List.mem_cons.1 hx with rfl | hx
    · exact hwf.1
    · exact ih hwf.2 x hx

theorem wfKeysFields_forall (fs : List (String × JsonVal)) (hwf : wfKeysFields fs = true) :
    ∀ kv ∈ fs, wfKeys kv.2 = true := by
  induction fs with
  | nil => intro kv hkv; exact absurd hkv (List.not_mem_nil kv)
  | cons y rest ih =>
    obtain ⟨k, v⟩ := y
    simp only [wfKeysFields, Bool.and_eq_true] at hwf
    intro kv hkv
    rcases List.mem_cons.1 hkv with rfl | hkv
    · exact hwf.1
    · exact ih hwf.2 kv hkv

/-- Key-order-equivalent payloads normalize identically (the right
operand being a well-formed JS value: distinct keys at every object
level). -/
theorem keyOrderEquiv_orderKeysDeep (p q : JsonVal) (h : KeyOrderEquiv p q)
    (hwf : wfKeys q = true) : orderKeysDeep p = orderKeysDeep q := by
  induction h with
  | null => rfl
  | undef => rfl
  | bool b => rfl
  | num n => rfl
  | str s => rfl
  | date iso => rfl
  | arr xs ys hlen hval ih =>
    have hwfs : ∀ x ∈ ys, wfKeys x = true := by
      apply wfKeysArr_forall
      simpa [wfKeys] using hwf
    show JsonVal.arr (orderKeysDeepArr xs) = JsonVal.arr (orderKeysDeepArr ys)
    rw [orderKeysDeepArr_eq_map, orderKeysDeepArr_eq_map]
    congr 1
    apply List.ext_get (by simp [hlen])
    intro n h1 h2
    rw [List.get_map, List.get_map]
    exact ih n (by simpa using h1) (by simpa using h2)
      (hwfs _ (List.get_mem ys n (by simpa using h2)))
  | obj fs gs gmid hlen hkey hval hperm ih =>
    have hnd : (gs.map Prod.fst).Nodup := by
      have := hwf
      simp only [wfKeys, Bool.and_eq_true, decide_eq_true_eq] at this
      exact this.1
    have hwfs : ∀ kv ∈ gs, wfKeys kv.2 = true := by
      apply wfKeysFields_forall
      simp only [wfKeys, Bool.and_eq_true] at hwf
      exact hwf.2
    show JsonVal.obj (sortFields (orderKeysDeepFields fs)) =
      JsonVal.obj (sortFields (orderKeysDeepFields gs))
    rw [orderKeysDeepFields_eq_map, orderKeysDeepFields_eq_map]
    congr 1
    have hmapeq : (fs.map fun kv => (kv.1, orderKeysDeep kv.2)) =
        gmid.map fun kv => (kv.1, orderKeysDeep kv.2) := by
      apply List.ext_get (by simp [hlen])
      intro n h1 h2
      rw [List.get_map, List.get_map]
      refine Prod.ext (hkey n (by simpa using h1) (by simpa using h2)) ?_
      exact ih n (by simpa using h1) (by simpa using h2)
        (hwfs _ (hperm.mem_iff.1 (List.get_mem gmid n (by simpa using h2))))
    rw [hmapeq]
    apply sortFields_eq_of_perm _ _ (hperm.map fun kv => (kv.1, orderKeysDeep kv.2))
    have : ((gs.map fun kv => (kv.1, orderKeysDeep kv.2)).map Prod.fst) = gs.map Prod.fst := by
      rw [List.map_map]
      rfl
    rw [this]
    exact hnd

/-- C4: for every namespace, action name, and pair of payloads that are
structurally equal up to object key order (`KeyOrderEquiv`: same atoms
with `Date`s compared via their ISO string, arrays elementwise, objects
up to a permutation of their fields) — the right payload being a
well-formed JS value (distinct keys per object) —
`buildDeduplicationKey` produces identical key strings for both; and a
lookup in the dedupe ledger after registering a call under key `k`
hits that call's entry if and only if the looked-up dedupe key is the
exactly equal string (otherwise it falls through to older entries):
two calls collide iff their dedupe keys match exactly. -/
theorem c4_dedupe_key (nsp action : String) (p q : JsonVal)
    (h : KeyOrderEquiv p q) (hwf : wfKeys q = true)
    (ledger : List (String × Nat)) (k k2 : String) (c : Nat) :
    buildDeduplicationKey nsp action p = buildDeduplicationKey nsp action q ∧
    alGet (alSet ledger k c) k2 = (if k = k2 then some c else alGet ledger k2) := by
  constructor
  · unfold buildDeduplicationKey stableStringify
    rw [keyOrderEquiv_orderKeysDeep p q h hwf]
  · exact alGet_alSet ledger k k2 c

/-- C4 witness: the payloads `{b: 2, a: 1}` and `{a: 1, b: 2}` produce
the same dedupe key for `u/save`. -/
theorem c4_witness :
    buildDeduplicationKey "u/" "save" (.obj [("b", .num 2), ("a", .num 1)]) =
      buildDeduplicationKey "u/" "save" (.obj [("a", .num 1), ("b", .num 2)]) ∧
    alGet (alSet ([] : List (String × Nat)) "k1" 7) "k1" = some 7 := by
  have hkoe : KeyOrderEquiv (.obj [("b", .num 2), ("a", .num 1)])
      (.obj [("a", .num 1), ("b", .num 2)]) := by
    refine KeyOrderEquiv.obj _ _ [("b", .num 2), ("a", .num 1)] rfl ?_ ?_
      (List.Perm.swap _ _ _)
    · intro i h1 h2
      rfl
    · intro i h1 h2
      simp only [List.length_cons, List.length_nil] at h1
      interval_cases i
      · exact .num 2
      · exact .num 1
  have h := c4_dedupe_key "u/" "save"
    (.obj [("b", .num 2), ("a", .num 1)]) (.obj [("a", .num 1), ("b", .num 2)])
    hkoe (by decide) ([] : List (String × Nat)) "k1" "k1" 7
  refine ⟨h.1, ?_⟩
  rw [h.2]
  rfl
